import Mathlib

/-!
Shallow embedding of the FAT filesystem engine in `src/fs/fat/src/lib.rs`
(crate `hyrax-fat`), together with theorems settling the frozen claims.

Storage is modelled as a byte-addressed tape `Nat → Nat` (the `DataStorage`
collaborator; its reads and writes always succeed, matching the
`DataStorageServer` implementation which unwraps all I/O).  Multi-byte fields
are little-endian, as in the `zerocopy` `U16`/`U32` types used by the source.
Rust panics (`unwrap`, out-of-bounds indexing) are modelled as a distinct
`Err.panic` outcome of `Except`.
-/

namespace Hyrax

/-- Byte-addressed storage: the `DataStorage` collaborator. Each cell holds
one byte (values `< 256` on well-formed volumes). -/
abbrev Storage := Nat → Nat

/-- Little-endian 16-bit read, as done by `zerocopy::little_endian::U16`. -/
def readU16 (s : Storage) (a : Nat) : Nat :=
  s a + 256 * s (a + 1)

/-- Little-endian 32-bit read, as done by `zerocopy::little_endian::U32`. -/
def readU32 (s : Storage) (a : Nat) : Nat :=
  s a + 256 * s (a + 1) + 65536 * s (a + 2) + 16777216 * s (a + 3)

/-- `DataStorage::read` of `n` bytes starting at address `a`. -/
def readBytes (s : Storage) (a n : Nat) : List Nat :=
  (List.range n).map fun i => s (a + i)

/-- `DataStorage::write` of the bytes `d` starting at address `a`. -/
def writeBytes (s : Storage) (a : Nat) (d : List Nat) : Storage :=
  fun x => if a ≤ x ∧ x < a + d.length then d.getD (x - a) 0 else s x

/-- The error taxonomy reaching the FAT server's callers: `FsError::Inconsistent`,
`FsError::Index` (crate `hyrax-err`), plus `panic` for Rust panics
(`Option::unwrap` on an exhausted iterator, out-of-bounds slice indexing). -/
inductive Err where
  | inconsistent
  | index
  | panic
deriving DecidableEq

/-- The validated volume geometry held by `FileSystemServer` after `new`. -/
structure Geometry where
  bytesPerClusterLog2 : Nat
  fatOffset : Nat
  clusterHeapOffset : Nat
  firstClusterOfRootDirectory : Nat
deriving DecidableEq

/-- `is_power_of_two` (lib.rs line 611). -/
def is_power_of_two (v : Nat) : Bool :=
  v ≠ 0 && v &&& (v - 1) == 0

/-- Halving recursion for `ilog2`, structurally bounded by a fuel that the
caller sets to `v` itself (a number needs at most `v` halvings to reach 1). -/
def ilog2Aux : Nat → Nat → Nat
  | 0, _ => 0
  | fuel + 1, v => if 2 ≤ v then ilog2Aux fuel (v / 2) + 1 else 0

/-- `u32::ilog2`: the floor base-2 logarithm (only applied to values already
checked to be powers of two, where it is exact). -/
def ilog2 (v : Nat) : Nat := ilog2Aux v v

/-- `FileSystemServer::new` (lib.rs lines 35–93): decode and validate the boot
sector read at offset 0.  Field offsets inside `BootSector`: `bpb_bytspersec`
at 11, `bpb_secperclus` at 13, `bpb_rsvdseccnt` at 14, `bpb_numfats` at 16,
`bpb_rootentcnt` at 17, `bpb_fatsz16` at 22, `bpb_fatsz32` at 36,
`bpb_rootclus` at 44.  32-bit arithmetic is reduced `% 2^32` as in Rust. -/
def fsNew (s : Storage) : Except Err Geometry :=
  let bytesPerSector := readU16 s 11
  if !is_power_of_two bytesPerSector then .error .inconsistent
  else
    let bytesPerSectorLog2 := ilog2 bytesPerSector
    if bytesPerSectorLog2 < 9 ∨ bytesPerSectorLog2 > 12 then .error .inconsistent
    else
      let sectorsPerCluster := s 13
      if !is_power_of_two sectorsPerCluster then .error .inconsistent
      else
        let sectorsPerClusterLog2 := ilog2 sectorsPerCluster
        if sectorsPerClusterLog2 > 7 then .error .inconsistent
        else
          let fatOffsetSectors := readU16 s 14
          let numberOfFats := s 16
          if numberOfFats ≠ 1 ∧ numberOfFats ≠ 2 then .error .inconsistent
          else
            let fatLength := if readU16 s 22 ≠ 0 then readU16 s 22 else readU32 s 36
            let rootDirectoryOffset := (fatOffsetSectors + fatLength * numberOfFats) % 2 ^ 32
            let rootDirectoryLength := (readU16 s 17 * 32) % 2 ^ 32
            if rootDirectoryLength &&& (1 <<< (bytesPerSectorLog2 + 1)) ≠ 0 then
              .error .inconsistent
            else
              let clusterHeapOffset :=
                (rootDirectoryOffset + (rootDirectoryLength >>> bytesPerSectorLog2)) % 2 ^ 32
              .ok { bytesPerClusterLog2 := bytesPerSectorLog2 + sectorsPerClusterLog2
                    fatOffset := fatOffsetSectors <<< bytesPerSectorLog2
                    clusterHeapOffset := clusterHeapOffset <<< bytesPerSectorLog2
                    firstClusterOfRootDirectory := readU32 s 44 }

/-! ### Directory entry field accessors

`DirEntry` (32 bytes): `dir_name` at 0 (11 bytes), `dir_attr` at 11,
`dir_fstclushi` at 20, `dir_fstcluslo` at 26, `dir_filesize` at 28.
`LongNameDirEntry`: `ldir_ord` at 0, `ldir_name1` at 1 (5 × U16),
`ldir_attr` at 11, `ldir_name2` at 14 (6 × U16), `ldir_name3` at 28 (2 × U16). -/

def dirAttr (s : Storage) (base : Nat) : Nat := s (base + 11)

def dirFstClusLo (s : Storage) (base : Nat) : Nat := readU16 s (base + 26)

def dirFstClusHi (s : Storage) (base : Nat) : Nat := readU16 s (base + 20)

def dirFileSize (s : Storage) (base : Nat) : Nat := readU32 s (base + 28)

def dirNameBytes (s : Storage) (base : Nat) : List Nat := readBytes s base 11

def ldirOrd (s : Storage) (base : Nat) : Nat := s base

/-- The 13 UTF-16 code units of a long-name fragment, in storage order:
`ldir_name1` then `ldir_name2` then `ldir_name3`. -/
def ldirUnits (s : Storage) (base : Nat) : List Nat :=
  [readU16 s (base + 1), readU16 s (base + 3), readU16 s (base + 5),
   readU16 s (base + 7), readU16 s (base + 9),
   readU16 s (base + 14), readU16 s (base + 16), readU16 s (base + 18),
   readU16 s (base + 20), readU16 s (base + 22), readU16 s (base + 24),
   readU16 s (base + 28), readU16 s (base + 30)]

/-! ### Cluster chain walker (`ClusterChain`, lib.rs lines 308–330) -/

/-- The chain-terminating test of `ClusterChain::next`:
`entry <= 0x0000001 || entry >= 0xFFFFFF7`. -/
def isChainEnd (c : Nat) : Bool := c ≤ 1 || 0xFFFFFF7 ≤ c

/-- The 4-byte little-endian FAT entry for cluster `c`, read at
`fat_offset + c * 4` (lib.rs line 321). -/
def fatVal (s : Storage) (g : Geometry) (c : Nat) : Nat :=
  readU32 s (g.fatOffset + c * 4)

/-- The items yielded by up to `fuel` calls of `ClusterChain::next` starting
from cluster number `c`: each valid step yields `c - 2` (the zero-based heap
index of the current cluster) and advances to the FAT entry just read.
With infallible storage every yielded item is `Ok`. -/
def chainWalk (s : Storage) (g : Geometry) (c : Nat) : Nat → List Nat
  | 0 => []
  | fuel + 1 =>
    if isChainEnd c then []
    else (c - 2) :: chainWalk s g (fatVal s g c) fuel

/-- The walker's on-disk cluster numbers (before the `- 2` bias); analysis
companion of `chainWalk`. -/
def walkOn (s : Storage) (g : Geometry) (c : Nat) : Nat → List Nat
  | 0 => []
  | fuel + 1 =>
    if isChainEnd c then []
    else c :: walkOn s g (fatVal s g c) fuel

/-- State of the walker after `Iterator::skip`-style discarding of `n` items:
once the chain ends the state no longer advances. -/
def skipChain (s : Storage) (g : Geometry) (c : Nat) : Nat → Nat
  | 0 => c
  | n + 1 => if isChainEnd c then c else skipChain s g (fatVal s g c) n

/-- Cluster size in bytes, `1 << bytes_per_cluster_log2`. -/
def clusterSize (g : Geometry) : Nat := 1 <<< g.bytesPerClusterLog2

/-- Absolute address of heap cluster `c` (on-disk numbering):
`cluster_heap_offset + ((c - 2) << bytes_per_cluster_log2)`. -/
def clusterAddr (g : Geometry) (c : Nat) : Nat :=
  g.clusterHeapOffset + ((c - 2) <<< g.bytesPerClusterLog2)

/-- Address `a` lies in the data region of heap cluster `c` (on-disk
numbering): the cluster-sized byte range starting at `clusterAddr g c`. -/
def InReg (g : Geometry) (c a : Nat) : Prop :=
  clusterAddr g c ≤ a ∧ a < clusterAddr g c + clusterSize g

instance (g : Geometry) (c a : Nat) : Decidable (InReg g c a) :=
  inferInstanceAs (Decidable (_ ∧ _))

/-! ### File I/O (`FileSystem::read` / `FileSystem::write`, lib.rs 224–305) -/

/-- The `for (cluster, buffer) in cluster_chain.zip(buffer.chunks_mut(...))`
loop of `read` (lib.rs lines 253–261): each remaining cluster overwrites one
full-cluster-sized chunk of the remaining buffer; the loop stops when the
chain ends or the buffer is exhausted, leaving the rest of the buffer as is.
The loop is given as structural recursion on a `fuel` bound; callers supply
`buffer length + 1`, which a loop consuming at least one byte per iteration
(a cluster holds `2^L ≥ 1` bytes) can never exhaust. -/
def readLoop (s : Storage) (g : Geometry) :
    Nat → Nat → List Nat → List Nat
  | 0, _, buf => buf
  | fuel + 1, c, buf =>
    if buf = [] then buf
    else if isChainEnd c then buf
    else
      readBytes s (clusterAddr g c) (min (clusterSize g) buf.length) ++
        readLoop s g fuel (fatVal s g c) (buf.drop (clusterSize g))

/-- The corresponding write loop (lib.rs lines 295–302).  Each step reads the
FAT entry of the current cluster from the *current* storage (the iterator's
`next` runs before the chunk write), then writes one chunk.  Fuel as in
`readLoop`. -/
def writeLoop (g : Geometry) :
    Nat → Storage → Nat → List Nat → Storage
  | 0, s, _, _ => s
  | fuel + 1, s, c, data =>
    if data = [] then s
    else if isChainEnd c then s
    else
      let nxt := fatVal s g c
      writeLoop g fuel (writeBytes s (clusterAddr g c) (data.take (clusterSize g))) nxt
        (data.drop (clusterSize g))

/-- `FileSystem::read` for the FAT server (lib.rs lines 224–264).  `buf` is the
caller's buffer (initial contents included); the result is its final contents.
Note the source computes the sub-cluster offset as
`offset & (1 << bytes_per_cluster_log2)` — a single-bit mask. -/
def fatRead (s : Storage) (g : Geometry) (index off : Nat) (buf : List Nat) :
    Except Err (List Nat) :=
  let base := g.clusterHeapOffset + index * 32
  if dirAttr s base &&& 0x18 ≠ 0 then .error .index
  else
    let first := dirFstClusLo s base ||| (dirFstClusHi s base <<< 16)
    let c := skipChain s g first (off >>> g.bytesPerClusterLog2)
    if isChainEnd c then .ok buf
    else
      let off2 := off &&& (1 <<< g.bytesPerClusterLog2)
      let bufEnd := min buf.length (clusterSize g - off2)
      .ok (readBytes s (clusterAddr g c + off2) bufEnd ++
        readLoop s g (buf.length + 1) (fatVal s g c) (buf.drop bufEnd))

/-- `FileSystem::write` for the FAT server (lib.rs lines 266–305); returns the
final storage state. -/
def fatWrite (s : Storage) (g : Geometry) (index off : Nat) (data : List Nat) :
    Except Err Storage :=
  let base := g.clusterHeapOffset + index * 32
  if dirAttr s base &&& 0x18 ≠ 0 then .error .index
  else
    let first := dirFstClusLo s base ||| (dirFstClusHi s base <<< 16)
    let c := skipChain s g first (off >>> g.bytesPerClusterLog2)
    if isChainEnd c then .ok s
    else
      let off2 := off &&& (1 <<< g.bytesPerClusterLog2)
      let bufEnd := min data.length (clusterSize g - off2)
      let s2 := writeBytes s (clusterAddr g c + off2) (data.take bufEnd)
      .ok (writeLoop g (data.length + 1) s2 (fatVal s g c) (data.drop bufEnd))

/-! ### Directory enumeration (`FileSystem::stat`, lib.rs lines 97–222)

The caller's output buffer receives self-describing `Entry` records
(`hyrax-fs`): `index : u64` at 0, `data_length : u64` at 8, `name_length : u8`
at 16, then the variable-length `name` occupying the rest of the buffer.  A
record's name field is modelled as a `List (Option Nat)` of its capacity
(buffer length minus 17): `none` marks a byte position the code never wrote
(the caller's previous buffer contents show through there). -/

/-- One decoded listing record as written into the caller's buffer. -/
structure EntryRec where
  index : Nat
  dataLength : Nat
  nameLength : Nat
  name : List (Option Nat)
deriving DecidableEq

/-- Name-writing state: `entry.name_length` (a `u8`, kept `% 256`) and the
name field's cells. -/
abbrev NameState := Nat × List (Option Nat)

/-- One short-name character store (lib.rs 141–151):
`entry.name_length += 1; entry.name[entry.name_length as usize] = c;` —
the increment happens *before* the store, so the first character lands at
index 1.  `none` models the panic of an out-of-bounds index. -/
def shortPush (cap : Nat) (st : NameState) (c : Nat) : Option NameState :=
  let nl := (st.1 + 1) % 256
  if nl < cap then some (nl, st.2.set nl (some c)) else none

/-- The 8.3 name reconstruction of lib.rs 140–152, for a 11-byte `dir_name`:
extension (last 3 bytes) iterated in reverse with trailing `0x20` skipped,
then a `'.'` if anything was written, then the base (first 8 bytes) iterated
in reverse with trailing `0x20` skipped. -/
def shortNameWrites (nameBytes : List Nat) (cap : Nat) : Option NameState := do
  let base := nameBytes.take 8
  let ext := nameBytes.drop 8
  let st0 : NameState := (0, List.replicate cap none)
  let st1 ← (ext.reverse.dropWhile (· == 0x20)).foldlM (shortPush cap) st0
  let st2 ← if st1.1 ≠ 0 then shortPush cap st1 46 else pure st1
  (base.reverse.dropWhile (· == 0x20)).foldlM (shortPush cap) st2

/-- UTF-8 encoding of a code point, as `char::encode_utf8`. -/
def utf8Encode (c : Nat) : List Nat :=
  if c < 0x80 then [c]
  else if c < 0x800 then [0xC0 + c / 64, 0x80 + c % 64]
  else if c < 0x10000 then [0xE0 + c / 4096, 0x80 + c / 64 % 64, 0x80 + c % 64]
  else [0xF0 + c / 262144, 0x80 + c / 4096 % 64, 0x80 + c / 64 % 64, 0x80 + c % 64]

/-- Store a run of bytes into consecutive name cells starting at `i`. -/
def setCells (cells : List (Option Nat)) (i : Nat) : List Nat → List (Option Nat)
  | [] => cells
  | b :: bs => setCells (cells.set i (some b)) (i + 1) bs

/-- One long-name character store (lib.rs 174–176 / 203–205):
`c.encode_utf8(&mut entry.name[entry.name_length..]); entry.name_length += c.len_utf8()`.
`none` models the panic when the remaining name slice is too short. -/
def utf8Push (cap : Nat) (st : NameState) (c : Nat) : Option NameState :=
  let bs := utf8Encode c
  if st.1 + bs.length ≤ cap then
    some ((st.1 + bs.length) % 256, setCells st.2 st.1 bs)
  else none

/-- `char::decode_utf16` over a list of code units; `none` models the panic of
`c.unwrap()` on an unpaired surrogate. -/
def decodeUtf16 : List Nat → Option (List Nat)
  | [] => some []
  | u :: rest =>
    if 0xD800 ≤ u ∧ u < 0xDC00 then
      match rest with
      | [] => none
      | v :: rest2 =>
        if 0xDC00 ≤ v ∧ v < 0xE000 then
          (decodeUtf16 rest2).map ((0x10000 + (u - 0xD800) * 1024 + (v - 0xDC00)) :: ·)
        else none
    else if 0xDC00 ≤ u ∧ u < 0xE000 then none
    else (decodeUtf16 rest).map (u :: ·)

/-- Decode one long-name fragment's prepared unit sequence and write the
resulting characters as UTF-8. -/
def longFragWrite (cap : Nat) (st : NameState) (units : List Nat) : Option NameState :=
  (decodeUtf16 units).bind fun cs => cs.foldlM (utf8Push cap) st

/-- The `for ord in (1..ldir_ord & 0x3F).rev()` loop plus the final fetch of
the short-name entry (lib.rs 179–211).  `ords` is `[k-1, ..., 1]`; each step
takes the next offset (panicking via `Err.panic` when the offset iterator is
exhausted, the `offsets.next().unwrap()` of the source), requires a long-name
attribute and the expected ordinal, and appends the fragment's 13 units in
reverse (no pad trimming).  On success returns the final name state, the
offset of the following short-name entry, and the remaining offsets. -/
def longFragLoop (s : Storage) (g : Geometry) (cap : Nat) :
    List Nat → List Nat → NameState → Except Err (NameState × Nat × List Nat)
  | [], offsets, st =>
    match offsets with
    | [] => .error .panic
    | o :: rest => .ok (st, o, rest)
  | ord :: ords, offsets, st =>
    match offsets with
    | [] => .error .panic
    | o :: rest =>
      let base := g.clusterHeapOffset + o
      if dirAttr s base ≠ 0x0F then .error .inconsistent
      else if ldirOrd s base ≠ ord then .error .inconsistent
      else
        match longFragWrite cap st (ldirUnits s base).reverse with
        | none => .error .panic
        | some st2 => longFragLoop s g cap ords rest st2

/-- `(16 + name_length).next_multiple_of(8)`: the size of one emitted record,
`offset_of!(Entry, name_length) = 16`. -/
def entrySize (nl : Nat) : Nat := (16 + nl + 7) / 8 * 8

/-- The `while let Some(mut offset) = offsets.next()` loop of `stat`
(lib.rs 118–219), over the flattened offset sequence.  `fuel` only guards
structural recursion; the top level supplies `offsets.length + 1`, which a
loop consuming at least one offset per iteration can never exhaust. -/
def statLoop (s : Storage) (g : Geometry) :
    Nat → List Nat → Nat → Except Err (List EntryRec)
  | 0, _, _ => .ok []
  | _ + 1, [], _ => .ok []
  | fuel + 1, o :: rest, bufLen =>
    let base := g.clusterHeapOffset + o
    if s base == 0x00 then .ok []
    else if s base == 0xE5 then statLoop s g fuel rest bufLen
    else if bufLen < 17 then .ok []
    else
      let cap := bufLen - 17
      if dirAttr s base ≠ 0x0F then
        if cap < 11 then .ok []
        else
          match shortNameWrites (dirNameBytes s base) cap with
          | none => .error .panic
          | some (nl, cells) =>
            if entrySize nl > bufLen then .error .panic
            else
              (statLoop s g fuel rest (bufLen - entrySize nl)).map
                (⟨o / 32, dirFileSize s base, nl, cells⟩ :: ·)
      else
        let ord0 := ldirOrd s base
        if ord0 &&& 0x40 == 0 then .error .inconsistent
        else if cap < (ord0 &&& 0x3F) * 13 then .ok []
        else
          let units :=
            (ldirUnits s base).reverse.dropWhile fun u => u == 0x0000 || u == 0xFFFF
          match longFragWrite cap (0, List.replicate cap none) units with
          | none => .error .panic
          | some st =>
            match longFragLoop s g cap ((List.range' 1 ((ord0 &&& 0x3F) - 1)).reverse)
                rest st with
            | .error e => .error e
            | .ok ((nl, cells), shortOff, rest2) =>
              let sbase := g.clusterHeapOffset + shortOff
              if entrySize nl > bufLen then .error .panic
              else
                (statLoop s g fuel rest2 (bufLen - entrySize nl)).map
                  (⟨shortOff / 32, dirFileSize s sbase, nl, cells⟩ :: ·)

/-- The 32-byte slot offsets a cluster with heap index `h` contributes
(lib.rs 114–117): `(offset..offset + 1 << L).step_by(32)` with
`offset = h << L`; note Rust parses the range end as `(offset + 1) << L`. -/
def clusterOffs (L : Nat) (h : Nat) : List Nat :=
  List.range' (h <<< L) (((((h <<< L) + 1) <<< L) - (h <<< L) + 31) / 32) 32

/-- The flattened offset sequence of `stat` (lib.rs 114–117): the cluster
chain's heap indices, each expanded to its slot offsets. -/
def statOffsets (s : Storage) (g : Geometry) (c : Nat) (fuel : Nat) : List Nat :=
  (chainWalk s g c fuel).flatMap (clusterOffs g.bytesPerClusterLog2)

/-- `FileSystem::stat` for the FAT server (lib.rs 97–222).  `byteOff` is the
`offset` argument, which the source never reads (the loop variable shadows
it); `chainFuel` bounds the lazily walked directory cluster chain, which the
source does not bound (a looping chain loops forever).  The result is the
list of records written into the caller's buffer of length `bufLen`.  (The
source returns `Ok(0)`; the records are the observable output.) -/
def statModel (s : Storage) (g : Geometry) (index byteOff bufLen chainFuel : Nat) :
    Except Err (List EntryRec) :=
  let firstE : Except Err Nat :=
    if index == 0 then .ok g.firstClusterOfRootDirectory
    else
      let base := g.clusterHeapOffset + index * 32
      if dirAttr s base &&& 0x10 == 0 then .error .index
      else .ok (dirFstClusLo s base ||| (dirFstClusHi s base <<< 16))
  match firstE with
  | .error e => .error e
  | .ok c =>
    let offs := statOffsets s g c chainFuel
    statLoop s g (offs.length + 1) offs bufLen

/-! ### Concrete volume fixtures

All fixtures use the geometry `⟨9, 1024, 4096, 2⟩`: 512-byte clusters, first
FAT at byte 1024, cluster heap at byte 4096, root directory at cluster 2
(heap index 0, so its slots sit at offsets 0, 32, …, 480 of the heap). -/

def g1 : Geometry := ⟨9, 1024, 4096, 2⟩

/-- Root directory with a single live 8.3 entry `FOO     BAR` (base `FOO`,
extension `BAR`), attribute `0x20`, file size 123, followed by the `0x00` end
marker.  `FAT[2]` holds the end-of-chain sentinel `0x0FFFFFFF`. -/
def s1 : Storage := fun a =>
  if a = 1032 ∨ a = 1033 ∨ a = 1034 then 0xFF else if a = 1035 then 0x0F
  else if a = 4096 then 70 else if a = 4097 ∨ a = 4098 then 79
  else if 4099 ≤ a ∧ a ≤ 4103 then 32
  else if a = 4104 then 66 else if a = 4105 then 65 else if a = 4106 then 82
  else if a = 4107 then 0x20
  else if a = 4124 then 123
  else 0

/-- A file volume: slot 0 is a plain-file entry (attributes clear) whose first
cluster is 3; the FAT chains 3 → 4 → end; every byte outside the FAT and the
directory slot reads as `address % 256`, so cluster 3's data (bytes
4608–5119) is `0,1,…,255,0,…` and cluster 4's data starts `0,1,2,3,…` at
byte 5120. -/
def s3 : Storage := fun a =>
  if a = 1036 then 4 else if 1037 ≤ a ∧ a ≤ 1039 then 0
  else if a = 1040 then 0xF7 else if a = 1041 ∨ a = 1042 then 0xFF
  else if a = 1043 then 0x0F
  else if 4096 ≤ a ∧ a ≤ 4127 then (if a = 4122 then 3 else 0)
  else a % 256

/-- Root directory holding one well-formed two-fragment long name
`ABCDEFGHIJKLMN` (slot 0: ordinal `0x42` with fragment `N` plus `0x0000`
padding; slot 1: ordinal 1 with fragment `ABCDEFGHIJKLM`; slot 2: the
short-name entry, attribute `0x20`, file size 77), then the end marker. -/
def s2f : Storage := fun a =>
  if a = 1032 ∨ a = 1033 ∨ a = 1034 then 0xFF else if a = 1035 then 0x0F
  else if a = 4096 then 0x42
  else if a = 4097 then 78
  else if a = 4107 then 0x0F
  else if a = 4128 then 0x01
  else if a = 4129 then 65 else if a = 4131 then 66 else if a = 4133 then 67
  else if a = 4135 then 68 else if a = 4137 then 69
  else if a = 4142 then 70 else if a = 4144 then 71 else if a = 4146 then 72
  else if a = 4148 then 73 else if a = 4150 then 74 else if a = 4152 then 75
  else if a = 4156 then 76 else if a = 4158 then 77
  else if a = 4139 then 0x0F
  else if a = 4171 then 0x20
  else if a = 4160 then 88
  else if a = 4188 then 77
  else 0

/-- Root directory whose first 15 slots are deleted (`0xE5`) and whose last
slot (offset 480, the final slot the one-cluster chain provides) begins a
long-name set with ordinal `0x42` (two fragments, so one more fragment and
the short-name entry would have to follow) — the set is truncated by the end
of the chain. -/
def s10 : Storage := fun a =>
  if a = 1032 ∨ a = 1033 ∨ a = 1034 then 0xFF else if a = 1035 then 0x0F
  else if 4096 ≤ a ∧ a < 4576 ∧ (a - 4096) % 32 = 0 then 0xE5
  else if a = 4576 then 0x42
  else if a = 4577 then 88
  else if a = 4587 then 0x0F
  else 0

/-- A valid cluster chain in the FAT state `s`: starting from cluster number
`c`, the listed clusters are exactly the non-sentinel steps, each FAT entry
naming the next, until a sentinel (`≤ 1` or `≥ 0xFFFFFF7`) ends the chain. -/
inductive ValidChain (s : Storage) (g : Geometry) : Nat → List Nat → Prop where
  | nil : ∀ c, isChainEnd c = true → ValidChain s g c []
  | cons : ∀ c cs, isChainEnd c = false → ValidChain s g (fatVal s g c) cs →
      ValidChain s g c (c :: cs)

/-- Boot sector with `bpb_bytspersec = 300` (not a power of two). -/
def s5a : Storage := fun a => if a = 11 then 44 else if a = 12 then 1 else 0

/-- Boot sector with `bpb_bytspersec = 512` and a sectors-per-cluster value of
`256 = 2^8`, whose log2 exceeds the 7 maximum. -/
def s5b : Storage := fun a => if a = 12 then 2 else if a = 13 then 256 else 0

/-! ### Claim theorems -/

/-- **C4** (confirmed).  For every FAT state describing a valid chain of
length `n` from starting cluster `c`, the cluster chain walker — whose each
step on a non-sentinel cluster `c` reads the 4-byte little-endian FAT entry
at `fat_offset + c * 4` (`fatVal`), yields `c - 2`, and advances to the value
read (`chainWalk`) — yields exactly the `n` heap indices `c - 2` in chain
order, and allowing one further `next` call (`fuel = n + 1`) yields nothing
more. -/
theorem C4_chain_walker_yields_chain (s : Storage) (g : Geometry) (c : Nat)
    (cs : List Nat) (h : ValidChain s g c cs) :
    chainWalk s g c cs.length = cs.map (· - 2) ∧
    chainWalk s g c (cs.length + 1) = cs.map (· - 2) := by
  induction h with
  | nil c hc => exact ⟨rfl, by simp [chainWalk, hc]⟩
  | cons c cs hc _ ih =>
    refine ⟨?_, ?_⟩
    · show chainWalk s g c (cs.length + 1) = _
      rw [chainWalk, if_neg (by simp [hc]), ih.1, List.map_cons]
    · show chainWalk s g c (cs.length + 1 + 1) = _
      rw [chainWalk, if_neg (by simp [hc]), ih.2, List.map_cons]

/-- Witness for C4 on the fixture `s3`: the chain `3 → 4 → end` yields heap
indices `[1, 2]` and no third item. -/
theorem C4_chain_walker_yields_chain_witness :
    chainWalk s3 g1 3 2 = [1, 2] ∧ chainWalk s3 g1 3 3 = [1, 2] :=
  C4_chain_walker_yields_chain s3 g1 3 [3, 4]
    (.cons 3 [4] (by decide)
      (.cons 4 [] (by decide) (.nil _ (by decide))))

/-- **C5** (confirmed).  `FileSystemServer::new` returns the `Inconsistent`
filesystem error whenever the sector size is not a power of two or its log2
lies outside `[9, 12]`, whenever sectors-per-cluster is not a power of two or
its log2 exceeds 7, or whenever the number of FATs is neither 1 nor 2; the
`Except.error` result carries no geometry, so no filesystem object exists for
subsequent operations. -/
theorem C5_mount_rejects_inconsistent_geometry (s : Storage)
    (h : is_power_of_two (readU16 s 11) = false ∨
         ilog2 (readU16 s 11) < 9 ∨ 12 < ilog2 (readU16 s 11) ∨
         is_power_of_two (s 13) = false ∨ 7 < ilog2 (s 13) ∨
         (s 16 ≠ 1 ∧ s 16 ≠ 2)) :
    fsNew s = .error .inconsistent := by
  unfold fsNew
  dsimp only
  split_ifs with h1 h2 h3 h4 h5 h6 <;> try rfl
  exfalso
  simp only [Bool.not_eq_true, Bool.not_not] at h1 h3
  rcases h with h | h | h | h | h | h
  · simp [h] at h1
  · exact h2 (Or.inl h)
  · exact h2 (Or.inr h)
  · simp [h] at h3
  · exact h4 h
  · exact h5 h

/-- Witness for C5: a boot sector with sector size 300 and one with
sectors-per-cluster `2^8` are both rejected with `Inconsistent`. -/
theorem C5_mount_rejects_inconsistent_geometry_witness :
    fsNew s5a = .error .inconsistent ∧ fsNew s5b = .error .inconsistent :=
  ⟨C5_mount_rejects_inconsistent_geometry s5a (Or.inl (by decide)),
   C5_mount_rejects_inconsistent_geometry s5b
     (Or.inr (Or.inr (Or.inr (Or.inr (Or.inl (by decide))))))⟩

/-- **C1** (code bug).  The claim states that for a live short-name entry the
name record equals the right-trimmed base, then `"."` plus the right-trimmed
extension when non-empty, in natural left-to-right order starting at index 0.
Evaluating `stat` on a directory whose single entry is `FOO     BAR` shows
what the code actually writes: index 0 of the name field is never written
(`none`), and indices 1–7 hold `RAB.OOF` — extension first, every component
reversed — instead of `FOO.BAR` at indices 0–6. -/
theorem C1_stat_short_name_reversed_off_by_one :
    statModel s1 g1 0 0 64 4 =
      .ok [⟨0, 123, 7,
        [none, some 82, some 65, some 66, some 46, some 79, some 79, some 70]
          ++ List.replicate 39 none⟩] ∧
    [(none : Option Nat), some 82, some 65, some 66, some 46, some 79, some 79, some 70]
      ≠ [some 70, some 79, some 79, some 46, some 66, some 65, some 82, none] :=
  ⟨rfl, by decide⟩

/-- **C2** (code bug).  The claim states that a well-formed `k`-fragment long
name decodes to the original UTF-16 string in ascending ordinal order.
Evaluating `stat` on a directory holding the two-fragment long name
`ABCDEFGHIJKLMN` shows the code writes `NMLKJIHGFEDCBA` — the fragments are
consumed in stored (descending) order and each fragment's units are iterated
in reverse, so the whole name comes out exactly reversed. -/
theorem C2_stat_long_name_reversed :
    statModel s2f g1 0 0 64 4 =
      .ok [⟨2, 77, 14,
        ([78, 77, 76, 75, 74, 73, 72, 71, 70, 69, 68, 67, 66, 65].map some)
          ++ List.replicate 33 none⟩] ∧
    [78, 77, 76, 75, 74, 73, 72, 71, 70, 69, 68, 67, 66, 65]
      ≠ [65, 66, 67, 68, 69, 70, 71, 72, 73, 74, 75, 76, 77, 78] :=
  ⟨rfl, by decide⟩

/-- **C3** (code bug).  The claim states that a read at
`offset = cluster_size − 4` of length 8 returns the last 4 bytes of the first
cluster followed by the first 4 bytes of the second.  The source computes the
sub-cluster offset as `offset & (1 << bytes_per_cluster_log2)` — a single-bit
mask, not `& (cluster_size - 1)` — so for `offset = 508` it reads from the
cluster's byte 0: the result is the *first* 8 bytes `0,…,7` of cluster 3's
data, not `252,253,254,255` (bytes 508–511) followed by `0,1,2,3` of
cluster 4. -/
theorem C3_read_sub_cluster_offset_mask_bug :
    fatRead s3 g1 0 508 (List.replicate 8 0) = .ok [0, 1, 2, 3, 4, 5, 6, 7] ∧
    [0, 1, 2, 3, 4, 5, 6, 7] ≠ [252, 253, 254, 255, 0, 1, 2, 3] :=
  ⟨rfl, by decide⟩

/-- **C8** (counterexample).  The claim states that a `stat` call with a
continuation `byte_offset` past the directory's only entry yields an empty
result and does not re-emit the first entry.  With `byte_offset = 64` (past
the single entry at slot 0) the code re-emits that entry: the `offset`
argument is never read. -/
theorem C8_cex_stat_reemits_with_nonzero_offset :
    statModel s1 g1 0 64 64 4 =
      .ok [⟨0, 123, 7,
        [none, some 82, some 65, some 66, some 46, some 79, some 79, some 70]
          ++ List.replicate 39 none⟩] :=
  rfl

/-- **C8** (amended).  `stat` ignores its `byte_offset` argument entirely and
always enumerates from the directory's first slot, so any two calls differing
only in `byte_offset` produce identical output; in particular a call with a
continuation offset past the first entry re-emits it rather than yielding an
empty result. -/
theorem C8_stat_ignores_byte_offset :
    ∀ (s : Storage) (g : Geometry) (index off off' bufLen fuel : Nat),
      statModel s g index off bufLen fuel = statModel s g index off' bufLen fuel :=
  fun _ _ _ _ _ _ _ => rfl

/-- `Except.map` preserves errors and nothing else maps to an error. -/
theorem except_map_error_iff {α β ε : Type} (f : α → β) (x : Except ε α) (e : ε) :
    x.map f = .error e ↔ x = .error e := by
  cases x <;> simp [Except.map]

/-- Inside a long-name set, the only errors are `Inconsistent` (bad attribute
or ordinal) and `panic` (exhausted offsets, undecodable fragment) — never
`Index`. -/
theorem longFragLoop_no_index (s : Storage) (g : Geometry) (cap : Nat) :
    ∀ (ords offsets : List Nat) (st : NameState),
      longFragLoop s g cap ords offsets st ≠ .error .index := by
  intro ords
  induction ords with
  | nil =>
    intro offsets st
    cases offsets <;> simp [longFragLoop]
  | cons ord ords ih =>
    intro offsets st
    cases offsets with
    | nil => simp [longFragLoop]
    | cons o rest =>
      intro hcontra
      rw [longFragLoop] at hcontra
      repeat' split at hcontra
      any_goals simp at hcontra
      exact ih rest _ hcontra

/-- The `stat` enumeration loop only fails with `Inconsistent` or `panic`;
the `Index` error arises solely from the slot check before the loop. -/
theorem statLoop_no_index (s : Storage) (g : Geometry) :
    ∀ (fuel : Nat) (offsets : List Nat) (bufLen : Nat),
      statLoop s g fuel offsets bufLen ≠ .error .index := by
  intro fuel
  induction fuel with
  | zero => intro offsets bufLen; simp [statLoop]
  | succ fuel ih =>
    intro offsets bufLen
    cases offsets with
    | nil => simp [statLoop]
    | cons o rest =>
      intro hcontra
      rw [statLoop] at hcontra
      dsimp only at hcontra
      repeat' split at hcontra
      any_goals simp at hcontra
      any_goals exact ih _ _ hcontra
      any_goals
        rw [except_map_error_iff] at hcontra
        exact ih _ _ hcontra
      rename_i e heq
      exact longFragLoop_no_index s g _ _ _ _ (by rw [heq, hcontra])

/-- **C9** (confirmed).  For a nonzero slot index, `stat` returns the `Index`
filesystem error exactly when the directory attribute bit `0x10` of the
entry at that slot is clear; `read` and `write` return the `Index` error
exactly when the entry's directory or volume-label bit (`0x18` mask) is set.
An `Index` result carries no data: the chain is never walked and nothing is
transferred. -/
theorem C9_index_errors (s : Storage) (g : Geometry)
    (index byteOff bufLen chainFuel off : Nat) (buf data : List Nat) :
    (index ≠ 0 →
      (statModel s g index byteOff bufLen chainFuel = .error .index ↔
        dirAttr s (g.clusterHeapOffset + index * 32) &&& 0x10 = 0)) ∧
    (fatRead s g index off buf = .error .index ↔
      dirAttr s (g.clusterHeapOffset + index * 32) &&& 0x18 ≠ 0) ∧
    (fatWrite s g index off data = .error .index ↔
      dirAttr s (g.clusterHeapOffset + index * 32) &&& 0x18 ≠ 0) := by
  refine ⟨?_, ?_, ?_⟩
  · intro hidx
    unfold statModel
    rw [if_neg (by simpa using hidx)]
    dsimp only
    by_cases hattr : dirAttr s (g.clusterHeapOffset + index * 32) &&& 0x10 = 0
    · rw [if_pos (by simpa using hattr)]
      simpa using hattr
    · rw [if_neg (by simpa using hattr)]
      dsimp only
      constructor
      · intro hcontra
        exact absurd hcontra (statLoop_no_index s g _ _ _)
      · intro h; exact absurd h hattr
  · unfold fatRead
    by_cases hattr : dirAttr s (g.clusterHeapOffset + index * 32) &&& 0x18 ≠ 0
    · rw [if_pos hattr]; simpa using hattr
    · rw [if_neg hattr]
      dsimp only
      constructor
      · intro hcontra
        split_ifs at hcontra
      · intro h; exact absurd h hattr
  · unfold fatWrite
    by_cases hattr : dirAttr s (g.clusterHeapOffset + index * 32) &&& 0x18 ≠ 0
    · rw [if_pos hattr]; simpa using hattr
    · rw [if_neg hattr]
      dsimp only
      constructor
      · intro hcontra
        split_ifs at hcontra
      · intro h; exact absurd h hattr

/-- Witness for C9 at slot 1 of the fixture `s1` (an all-zero entry: the
directory bit is clear, so `stat` errors with `Index` while `read`/`write`
accept the slot). -/
theorem C9_index_errors_witness :
    (statModel s1 g1 1 0 64 4 = .error .index ↔
      dirAttr s1 (g1.clusterHeapOffset + 1 * 32) &&& 0x10 = 0) ∧
    (fatRead s1 g1 1 0 [] = .error .index ↔
      dirAttr s1 (g1.clusterHeapOffset + 1 * 32) &&& 0x18 ≠ 0) ∧
    (fatWrite s1 g1 1 0 [] = .error .index ↔
      dirAttr s1 (g1.clusterHeapOffset + 1 * 32) &&& 0x18 ≠ 0) :=
  ⟨(C9_index_errors s1 g1 1 0 64 4 0 [] []).1 (by decide),
   (C9_index_errors s1 g1 1 0 64 4 0 [] []).2.1,
   (C9_index_errors s1 g1 1 0 64 4 0 [] []).2.2⟩

/-- `DataStorage::read` fills exactly the requested number of bytes. -/
theorem readBytes_length (s : Storage) (a n : Nat) : (readBytes s a n).length = n := by
  simp [readBytes]

/-- The read loop preserves the buffer's length: every byte is either
overwritten from storage or retained. -/
theorem readLoop_length (s : Storage) (g : Geometry) :
    ∀ (fuel c : Nat) (buf : List Nat), (readLoop s g fuel c buf).length = buf.length := by
  intro fuel
  induction fuel with
  | zero => intro c buf; rfl
  | succ fuel ih =>
    intro c buf
    rw [readLoop]
    split_ifs with h1 h2
    · rfl
    · rfl
    · simp only [List.length_append, readBytes_length, ih, List.length_drop]
      omega

/-- **C6** (confirmed).  For a slot whose directory/volume-label bits are
clear, `read` and `write` always return success — a cluster chain that ends
before the request is satisfied is not an error — and once the chain ends
(`isChainEnd`), the loops transfer nothing further: the rest of the read
buffer keeps its prior contents (fewer bytes than requested are returned) and
the storage is left untouched (a write never extends the chain). `read` also
returns a buffer of exactly the caller's length. -/
theorem C6_chain_end_returns_success (s : Storage) (g : Geometry)
    (index off : Nat) (buf data : List Nat)
    (hattr : dirAttr s (g.clusterHeapOffset + index * 32) &&& 0x18 = 0) :
    (∃ out, fatRead s g index off buf = .ok out ∧ out.length = buf.length) ∧
    (∃ t, fatWrite s g index off data = .ok t) ∧
    (∀ (fuel c : Nat) (b : List Nat), isChainEnd c = true →
      readLoop s g fuel c b = b) ∧
    (∀ (fuel c : Nat) (t : Storage) (d : List Nat), isChainEnd c = true →
      writeLoop g fuel t c d = t) := by
  refine ⟨?_, ?_, ?_, ?_⟩
  · unfold fatRead
    rw [if_neg (not_ne_iff.mpr hattr)]
    dsimp only
    split_ifs with h
    · exact ⟨buf, rfl, rfl⟩
    · refine ⟨_, rfl, ?_⟩
      simp only [List.length_append, readBytes_length, readLoop_length, List.length_drop]
      omega
  · unfold fatWrite
    rw [if_neg (not_ne_iff.mpr hattr)]
    dsimp only
    split_ifs with h
    · exact ⟨s, rfl⟩
    · exact ⟨_, rfl⟩
  · intro fuel c b hc
    cases fuel with
    | zero => rfl
    | succ fuel =>
      rw [readLoop]
      split_ifs <;> rfl
  · intro fuel c t d hc
    cases fuel with
    | zero => rfl
    | succ fuel =>
      rw [writeLoop]
      split_ifs <;> rfl

/-- Witness for C6 on the fixture `s3` (file slot 0, chain `3 → 4 → end`):
a read and a write at byte offset 2000 — past the 1024 bytes the chain
provides — both succeed. -/
theorem C6_chain_end_returns_success_witness :
    dirAttr s3 (g1.clusterHeapOffset + 0 * 32) &&& 0x18 = 0 ∧
    ((∃ out, fatRead s3 g1 0 2000 [7, 7] = .ok out ∧ out.length = 2) ∧
     (∃ t, fatWrite s3 g1 0 2000 [7, 7] = .ok t) ∧
     (∀ (fuel c : Nat) (b : List Nat), isChainEnd c = true →
       readLoop s3 g1 fuel c b = b) ∧
     (∀ (fuel c : Nat) (t : Storage) (d : List Nat), isChainEnd c = true →
       writeLoop g1 fuel t c d = t)) :=
  ⟨by decide, C6_chain_end_returns_success s3 g1 0 2000 [7, 7] [7, 7] (by decide)⟩

/-- **C10** (confirmed).  Whenever a long-name entry set still needs entries
(remaining descending-ordinal fragments, or the required following
short-name entry) but the flattened offset sequence provided by the
directory's cluster chain is exhausted, the `offsets.next().unwrap()` of the
source panics — modelled as `Err.panic`, never `Inconsistent` or a storage
error.  Concretely, `stat` on a volume whose last chain-provided slot begins
a two-fragment long-name set panics. -/
theorem C10_truncated_long_name_set_panics :
    (∀ (s : Storage) (g : Geometry) (cap : Nat) (ords : List Nat) (st : NameState),
      longFragLoop s g cap ords [] st = .error .panic) ∧
    statModel s10 g1 0 0 64 4 = .error .panic :=
  ⟨fun s g cap ords st => by cases ords <;> rfl, rfl⟩

/-! ### Write/read round-trip infrastructure (for C7)

The round-trip argument needs: pointwise characterisations of `writeBytes`
and `readBytes`; that the chain walk only depends on the FAT cells of its own
clusters; that distinct clusters occupy disjoint data regions; and that the
loops ignore surplus fuel. -/

theorem clusterSize_pos (g : Geometry) : 0 < clusterSize g := by
  rw [clusterSize, Nat.one_shiftLeft]
  exact Nat.pos_pow_of_pos _ (by omega)

theorem writeBytes_outside {s : Storage} {a : Nat} {d : List Nat} {x : Nat}
    (h : ¬(a ≤ x ∧ x < a + d.length)) : writeBytes s a d x = s x :=
  if_neg h

theorem writeBytes_nil (s : Storage) (a : Nat) : writeBytes s a [] = s := by
  funext x
  exact writeBytes_outside (by simp)

theorem readBytes_congr {s t : Storage} {a n : Nat}
    (h : ∀ i, i < n → t (a + i) = s (a + i)) :
    readBytes t a n = readBytes s a n := by
  simp only [readBytes]
  exact List.map_congr_left fun i hi => h i (List.mem_range.mp hi)

theorem readBytes_writeBytes (s : Storage) (a : Nat) (d : List Nat) :
    readBytes (writeBytes s a d) a d.length = d := by
  apply List.ext_getElem (by simp [readBytes_length])
  intro i h1 h2
  simp only [readBytes, List.getElem_map, List.getElem_range, writeBytes]
  rw [if_pos ⟨Nat.le_add_right _ _, by omega⟩, Nat.add_sub_cancel_left,
    List.getD_eq_getElem _ _ h2]

theorem fatVal_congr {s t : Storage} (g : Geometry) (c : Nat)
    (h : ∀ j, j < 4 → t (g.fatOffset + c * 4 + j) = s (g.fatOffset + c * 4 + j)) :
    fatVal t g c = fatVal s g c := by
  have h0 := h 0 (by omega)
  have h1 := h 1 (by omega)
  have h2 := h 2 (by omega)
  have h3 := h 3 (by omega)
  simp only [Nat.add_zero] at h0
  unfold fatVal readU32
  omega

theorem walkOn_valid (s : Storage) (g : Geometry) :
    ∀ (fuel c : Nat), ∀ cc ∈ walkOn s g c fuel, isChainEnd cc = false := by
  intro fuel
  induction fuel with
  | zero => intro c cc hcc; simp [walkOn] at hcc
  | succ fuel ih =>
    intro c cc hcc
    rw [walkOn] at hcc
    by_cases h : isChainEnd c
    · rw [if_pos h] at hcc; simp at hcc
    · rw [if_neg h] at hcc
      rcases List.mem_cons.mp hcc with rfl | hm
      · simpa using h
      · exact ih _ _ hm

theorem two_le_of_not_chainEnd {c : Nat} (h : isChainEnd c = false) : 2 ≤ c := by
  simp only [isChainEnd, Bool.or_eq_false_iff, decide_eq_false_iff_not] at h
  omega

theorem walkOn_congr {s t : Storage} (g : Geometry) :
    ∀ (fuel c : Nat),
      (∀ cc ∈ walkOn s g c fuel, fatVal t g cc = fatVal s g cc) →
      walkOn t g c fuel = walkOn s g c fuel := by
  intro fuel
  induction fuel with
  | zero => intro c _; rfl
  | succ fuel ih =>
    intro c h
    by_cases hc : isChainEnd c
    · rw [walkOn, walkOn, if_pos hc, if_pos hc]
    · have hmem : c ∈ walkOn s g c (fuel + 1) := by
        rw [walkOn, if_neg hc]; exact List.mem_cons_self _ _
      rw [walkOn, walkOn, if_neg hc, if_neg hc, h c hmem]
      congr 1
      apply ih
      intro cc hcc
      apply h
      rw [walkOn, if_neg hc]
      exact List.mem_cons_of_mem _ hcc

theorem walkOn_skip (s : Storage) (g : Geometry) :
    ∀ (n m c : Nat) (cs : List Nat), 0 < m →
      walkOn s g c (n + m) = cs → cs.length = n + m →
      skipChain s g c n = cs.getD n 0 ∧
        walkOn s g (cs.getD n 0) m = cs.drop n := by
  intro n
  induction n with
  | zero =>
    intro m c cs hm hw hlen
    cases m with
    | zero => omega
    | succ m =>
      rw [Nat.zero_add] at hw hlen
      rw [walkOn] at hw
      by_cases hc : isChainEnd c
      · rw [if_pos hc] at hw
        rw [← hw] at hlen
        simp at hlen
      · rw [if_neg hc] at hw
        rcases cs with _ | ⟨c0, cs'⟩
        · exact absurd hw (by simp)
        · injection hw with hc0 hw'
          subst hc0
          refine ⟨rfl, ?_⟩
          simp only [List.getD_cons_zero, List.drop_zero]
          rw [walkOn, if_neg hc, hw']
  | succ n ih =>
    intro m c cs hm hw hlen
    rw [show n + 1 + m = (n + m) + 1 by omega, walkOn] at hw
    by_cases hc : isChainEnd c
    · rw [if_pos hc] at hw
      rw [← hw] at hlen
      simp at hlen
      omega
    · rw [if_neg hc] at hw
      rcases cs with _ | ⟨c0, cs'⟩
      · exact absurd hw (by simp)
      · injection hw with hc0 hw'
        subst hc0
        have hlen' : cs'.length = n + m := by
          simp only [List.length_cons] at hlen; omega
        obtain ⟨hski, hwa⟩ := ih m (fatVal s g c) cs' hm hw' hlen'
        refine ⟨?_, ?_⟩
        · rw [skipChain, if_neg hc, hski]
          simp [List.getD_cons_succ]
        · simpa [List.getD_cons_succ] using hwa

theorem clusterAddr_as_mul (g : Geometry) (c : Nat) :
    clusterAddr g c = g.clusterHeapOffset + (c - 2) * clusterSize g := by
  rw [clusterAddr, clusterSize, Nat.shiftLeft_eq, Nat.one_shiftLeft]

theorem InReg_disjoint {g : Geometry} {c c' : Nat} (hc : 2 ≤ c) (hc' : 2 ≤ c')
    (hne : c ≠ c') {a : Nat} (h : InReg g c a) : ¬InReg g c' a := by
  intro h'
  rw [InReg, clusterAddr_as_mul] at h h'
  have hK : 0 < clusterSize g := clusterSize_pos g
  rcases Nat.lt_or_ge c c' with hlt | hge
  · have hmul : ((c - 2) + 1) * clusterSize g ≤ (c' - 2) * clusterSize g :=
      Nat.mul_le_mul_right _ (by omega)
    rw [Nat.succ_mul] at hmul
    omega
  · have hlt : c' < c := by omega
    have hmul : ((c' - 2) + 1) * clusterSize g ≤ (c - 2) * clusterSize g :=
      Nat.mul_le_mul_right _ (by omega)
    rw [Nat.succ_mul] at hmul
    omega

theorem writeLoop_fuel_irrel (g : Geometry) :
    ∀ (f1 f2 : Nat) (s : Storage) (c : Nat) (ds : List Nat),
      ds.length < f1 → ds.length < f2 →
      writeLoop g f1 s c ds = writeLoop g f2 s c ds := by
  intro f1
  induction f1 with
  | zero => intro f2 s c ds h1 _; omega
  | succ f1 ih =>
    intro f2 s c ds h1 h2
    cases f2 with
    | zero => omega
    | succ f2 =>
      rw [writeLoop, writeLoop]
      by_cases hds : ds = []
      · rw [if_pos hds, if_pos hds]
      · rw [if_neg hds, if_neg hds]
        by_cases hc : isChainEnd c
        · rw [if_pos hc, if_pos hc]
        · rw [if_neg hc, if_neg hc]
          have hK : 0 < clusterSize g := clusterSize_pos g
          have hlen : ds.length ≠ 0 := by simpa [List.length_eq_zero] using hds
          apply ih
          · simp only [List.length_drop]; omega
          · simp only [List.length_drop]; omega

theorem readLoop_fuel_irrel (s : Storage) (g : Geometry) :
    ∀ (f1 f2 c : Nat) (buf : List Nat),
      buf.length < f1 → buf.length < f2 →
      readLoop s g f1 c buf = readLoop s g f2 c buf := by
  intro f1
  induction f1 with
  | zero => intro f2 c buf h1 _; omega
  | succ f1 ih =>
    intro f2 c buf h1 h2
    cases f2 with
    | zero => omega
    | succ f2 =>
      rw [readLoop, readLoop]
      by_cases hbuf : buf = []
      · rw [if_pos hbuf, if_pos hbuf]
      · rw [if_neg hbuf, if_neg hbuf]
        by_cases hc : isChainEnd c
        · rw [if_pos hc, if_pos hc]
        · rw [if_neg hc, if_neg hc]
          have hK : 0 < clusterSize g := clusterSize_pos g
          have hlen : buf.length ≠ 0 := by simpa [List.length_eq_zero] using hbuf
          congr 1
          apply ih
          · simp only [List.length_drop]; omega
          · simp only [List.length_drop]; omega

theorem take_min_length {α : Type} (l : List α) (k : Nat) :
    l.take (min l.length k) = l.take k := by
  rcases Nat.le_total l.length k with h | h
  · rw [Nat.min_eq_left h, List.take_length, List.take_of_length_le h]
  · rw [Nat.min_eq_right h]

theorem drop_min_length {α : Type} (l : List α) (k : Nat) :
    l.drop (min l.length k) = l.drop k := by
  rcases Nat.le_total l.length k with h | h
  · rw [Nat.min_eq_left h, List.drop_length, List.drop_eq_nil_of_le h]
  · rw [Nat.min_eq_right h]

/-- Core write lemma: when the write loop's traversal window `cs` (the chain
clusters from the current position, long enough to cover `ds`) consists of
pairwise-distinct clusters whose FAT cells lie outside all the window's data
regions, the loop (1) leaves every address outside the window's data regions
untouched and (2) leaves chunk `i` of `ds` readable at cluster `cs[i]`. -/
theorem writeLoop_frame_chunks (g : Geometry) :
    ∀ (cs : List Nat) (s : Storage) (c : Nat) (ds : List Nat) (fuel : Nat),
      walkOn s g c cs.length = cs →
      ds.length ≤ cs.length * clusterSize g →
      cs.Nodup →
      (∀ c1 ∈ cs, ∀ c2 ∈ cs, ∀ a, InReg g c2 a →
        ¬(g.fatOffset + c1 * 4 ≤ a ∧ a < g.fatOffset + c1 * 4 + 4)) →
      ds.length < fuel →
      (∀ a, (∀ cc ∈ cs, ¬InReg g cc a) → writeLoop g fuel s c ds a = s a) ∧
      (∀ i, i * clusterSize g < ds.length →
        readBytes (writeLoop g fuel s c ds) (clusterAddr g (cs.getD i 0))
            (min (clusterSize g) (ds.length - i * clusterSize g)) =
          (ds.drop (i * clusterSize g)).take (clusterSize g)) := by
  intro cs
  induction cs with
  | nil =>
    intro s c ds fuel hw hcov hnd hfat hfuel
    have hds : ds = [] := List.length_eq_zero.mp (by
      simp only [List.length_nil, Nat.zero_mul, Nat.le_zero] at hcov
      exact hcov)
    subst hds
    refine ⟨?_, ?_⟩
    · intro a _
      cases fuel with
      | zero => rfl
      | succ fuel => rw [writeLoop, if_pos rfl]
    · intro i hi
      simp at hi
  | cons c0 cs' ih =>
    intro s c ds fuel hw hcov hnd hfat hfuel
    rw [List.length_cons, walkOn] at hw
    by_cases hc : isChainEnd c
    · rw [if_pos hc] at hw
      exact absurd hw (by simp)
    · rw [if_neg hc] at hw
      injection hw with hc0 hw'
      subst hc0
      by_cases hds : ds = []
      · subst hds
        refine ⟨?_, ?_⟩
        · intro a _
          cases fuel with
          | zero => rfl
          | succ fuel => rw [writeLoop, if_pos rfl]
        · intro i hi
          simp at hi
      · cases fuel with
        | zero => omega
        | succ fuel =>
          have hK : 0 < clusterSize g := clusterSize_pos g
          have hdslen : ds.length ≠ 0 := by simpa [List.length_eq_zero] using hds
          have hcend : isChainEnd c = false := by simpa using hc
          have hc2 : 2 ≤ c := two_le_of_not_chainEnd hcend
          have hvalid' : ∀ cc ∈ cs', isChainEnd cc = false := by
            intro cc hcc
            exact walkOn_valid s g cs'.length (fatVal s g c) cc (by rw [hw']; exact hcc)
          -- the step's write stays within cluster `c`'s region
          have htakelen : (ds.take (clusterSize g)).length ≤ clusterSize g := by
            simp [List.length_take]
          have hs2_out : ∀ a, ¬InReg g c a →
              writeBytes s (clusterAddr g c) (ds.take (clusterSize g)) a = s a := by
            intro a ha
            apply writeBytes_outside
            intro hin
            exact ha ⟨hin.1, by omega⟩
          -- FAT cells of the window survive the step's write
          have hfat2 : ∀ cc ∈ c :: cs',
              fatVal (writeBytes s (clusterAddr g c) (ds.take (clusterSize g))) g cc =
                fatVal s g cc := by
            intro cc hcc
            apply fatVal_congr
            intro j hj
            apply hs2_out
            intro hin
            exact hfat cc hcc c (List.mem_cons_self _ _) _ hin
              ⟨Nat.le_add_right _ _, by omega⟩
          have hw2 : walkOn (writeBytes s (clusterAddr g c) (ds.take (clusterSize g))) g
              (fatVal s g c) cs'.length = cs' := by
            have hcg := @walkOn_congr s
              (writeBytes s (clusterAddr g c) (ds.take (clusterSize g))) g cs'.length
              (fatVal s g c)
              (fun cc hcc => hfat2 cc (List.mem_cons_of_mem _ (hw' ▸ hcc)))
            rw [hcg, hw']
          have hcov' : (ds.drop (clusterSize g)).length ≤ cs'.length * clusterSize g := by
            rw [List.length_cons, Nat.succ_mul] at hcov
            simp only [List.length_drop]
            omega
          have hnd' : cs'.Nodup := (List.nodup_cons.mp hnd).2
          have hnotin : c ∉ cs' := (List.nodup_cons.mp hnd).1
          have hfat' : ∀ c1 ∈ cs', ∀ c2 ∈ cs', ∀ a, InReg g c2 a →
              ¬(g.fatOffset + c1 * 4 ≤ a ∧ a < g.fatOffset + c1 * 4 + 4) := by
            intro c1 h1 c2 h2 a hin
            exact hfat c1 (List.mem_cons_of_mem _ h1) c2 (List.mem_cons_of_mem _ h2) a hin
          have hfuel' : (ds.drop (clusterSize g)).length < fuel := by
            simp only [List.length_drop]
            omega
          obtain ⟨ihframe, ihchunks⟩ :=
            ih (writeBytes s (clusterAddr g c) (ds.take (clusterSize g)))
              (fatVal s g c) (ds.drop (clusterSize g)) fuel hw2 hcov' hnd' hfat' hfuel'
          have hstep : writeLoop g (fuel + 1) s c ds =
              writeLoop g fuel (writeBytes s (clusterAddr g c) (ds.take (clusterSize g)))
                (fatVal s g c) (ds.drop (clusterSize g)) := by
            rw [writeLoop, if_neg hds, if_neg hc]
          refine ⟨?_, ?_⟩
          · intro a ha
            rw [hstep, ihframe a (fun cc hcc => ha cc (List.mem_cons_of_mem _ hcc))]
            exact hs2_out a (ha c (List.mem_cons_self _ _))
          · intro i hi
            cases i with
            | zero =>
              simp only [Nat.zero_mul, Nat.sub_zero, List.getD_cons_zero, List.drop_zero] at hi ⊢
              rw [hstep]
              have hagree : readBytes
                  (writeLoop g fuel (writeBytes s (clusterAddr g c) (ds.take (clusterSize g)))
                    (fatVal s g c) (ds.drop (clusterSize g)))
                  (clusterAddr g c) (min (clusterSize g) ds.length) =
                  readBytes (writeBytes s (clusterAddr g c) (ds.take (clusterSize g)))
                    (clusterAddr g c) (min (clusterSize g) ds.length) := by
                apply readBytes_congr
                intro j hj
                apply ihframe
                intro cc hcc
                have hmemreg : InReg g c (clusterAddr g c + j) :=
                  ⟨Nat.le_add_right _ _, by omega⟩
                exact InReg_disjoint hc2
                  (two_le_of_not_chainEnd (hvalid' cc hcc))
                  (fun heq => hnotin (heq ▸ hcc)) hmemreg
              rw [hagree]
              have hrb := readBytes_writeBytes s (clusterAddr g c) (ds.take (clusterSize g))
              rw [List.length_take] at hrb
              exact hrb
            | succ i' =>
              have hi' : i' * clusterSize g < (ds.drop (clusterSize g)).length := by
                rw [Nat.succ_mul] at hi
                simp only [List.length_drop]
                omega
              have hres := ihchunks i' hi'
              rw [hstep]
              have hidx : (c :: cs').getD (i' + 1) 0 = cs'.getD i' 0 := by
                simp [List.getD_cons_succ]
              have hdrop : (ds.drop (clusterSize g)).drop (i' * clusterSize g) =
                  ds.drop ((i' + 1) * clusterSize g) := by
                rw [List.drop_drop, Nat.succ_mul]
                ring_nf
              have hsub : (ds.drop (clusterSize g)).length - i' * clusterSize g =
                  ds.length - (i' + 1) * clusterSize g := by
                simp only [List.length_drop, Nat.succ_mul]
                omega
              rw [hidx, ← hdrop, ← hsub]
              exact hres

/-- Core read lemma: if storage `t` holds chunk `i` of `ds` at cluster
`cs[i]` along its chain window `cs`, the read loop reassembles exactly
`ds` into a buffer of the same length. -/
theorem readLoop_chunks (g : Geometry) :
    ∀ (cs : List Nat) (t : Storage) (c : Nat) (ds buf : List Nat) (fuel : Nat),
      walkOn t g c cs.length = cs →
      ds.length ≤ cs.length * clusterSize g →
      (∀ i, i * clusterSize g < ds.length →
        readBytes t (clusterAddr g (cs.getD i 0))
            (min (clusterSize g) (ds.length - i * clusterSize g)) =
          (ds.drop (i * clusterSize g)).take (clusterSize g)) →
      buf.length = ds.length →
      buf.length < fuel →
      readLoop t g fuel c buf = ds := by
  intro cs
  induction cs with
  | nil =>
    intro t c ds buf fuel hw hcov hchunks hlen hfuel
    have hds : ds = [] := List.length_eq_zero.mp (by
      simp only [List.length_nil, Nat.zero_mul, Nat.le_zero] at hcov
      exact hcov)
    subst hds
    have hbuf : buf = [] := List.length_eq_zero.mp hlen
    subst hbuf
    cases fuel with
    | zero => rfl
    | succ fuel => rw [readLoop, if_pos rfl]
  | cons c0 cs' ih =>
    intro t c ds buf fuel hw hcov hchunks hlen hfuel
    rw [List.length_cons, walkOn] at hw
    by_cases hc : isChainEnd c
    · rw [if_pos hc] at hw
      exact absurd hw (by simp)
    · rw [if_neg hc] at hw
      injection hw with hc0 hw'
      subst hc0
      by_cases hds : ds = []
      · subst hds
        have hbuf : buf = [] := List.length_eq_zero.mp hlen
        subst hbuf
        cases fuel with
        | zero => rfl
        | succ fuel => rw [readLoop, if_pos rfl]
      · cases fuel with
        | zero => omega
        | succ fuel =>
          have hK : 0 < clusterSize g := clusterSize_pos g
          have hdslen : ds.length ≠ 0 := by simpa [List.length_eq_zero] using hds
          have hbuf : buf ≠ [] := by
            intro hcontra
            rw [hcontra] at hlen
            simp at hlen
            exact hds (List.length_eq_zero.mp hlen.symm)
          rw [readLoop, if_neg hbuf, if_neg hc]
          have h0 := hchunks 0 (by simpa using Nat.pos_of_ne_zero hdslen)
          simp only [Nat.zero_mul, Nat.sub_zero, List.getD_cons_zero, List.drop_zero] at h0
          have hcov' : (ds.drop (clusterSize g)).length ≤ cs'.length * clusterSize g := by
            rw [List.length_cons, Nat.succ_mul] at hcov
            simp only [List.length_drop]
            omega
          have hchunks' : ∀ i, i * clusterSize g < (ds.drop (clusterSize g)).length →
              readBytes t (clusterAddr g (cs'.getD i 0))
                  (min (clusterSize g) ((ds.drop (clusterSize g)).length - i * clusterSize g)) =
                ((ds.drop (clusterSize g)).drop (i * clusterSize g)).take (clusterSize g) := by
            intro i hi
            have hi2 : (i + 1) * clusterSize g < ds.length := by
              rw [Nat.succ_mul]
              simp only [List.length_drop] at hi
              omega
            have hres := hchunks (i + 1) hi2
            have hidx : (c :: cs').getD (i + 1) 0 = cs'.getD i 0 := by
              simp [List.getD_cons_succ]
            have hdrop : (ds.drop (clusterSize g)).drop (i * clusterSize g) =
                ds.drop ((i + 1) * clusterSize g) := by
              rw [List.drop_drop, Nat.succ_mul]
              ring_nf
            have hsub : (ds.drop (clusterSize g)).length - i * clusterSize g =
                ds.length - (i + 1) * clusterSize g := by
              simp only [List.length_drop, Nat.succ_mul]
              omega
            rw [hidx] at hres
            rw [hdrop, hsub]
            exact hres
          have hlen' : (buf.drop (clusterSize g)).length = (ds.drop (clusterSize g)).length := by
            simp only [List.length_drop, hlen]
          have hfuel' : (buf.drop (clusterSize g)).length < fuel := by
            have : buf.length ≠ 0 := by simpa [List.length_eq_zero] using hbuf
            simp only [List.length_drop]
            omega
          rw [ih t (fatVal t g c) (ds.drop (clusterSize g)) (buf.drop (clusterSize g)) fuel
            hw' hcov' hchunks' hlen' hfuel']
          rw [hlen, h0]
          exact List.take_append_drop _ _

/-- Window-level round trip: writing `data` along a duplicate-free chain
window and reading it back through the same window returns `data`; moreover
the write leaves every address outside the window's data regions untouched. -/
theorem writeLoop_roundtrip (g : Geometry) (cs : List Nat) (s : Storage) (c : Nat)
    (data buf : List Nat) (f1 f2 : Nat)
    (hw : walkOn s g c cs.length = cs)
    (hcov : data.length ≤ cs.length * clusterSize g)
    (hnd : cs.Nodup)
    (hfat : ∀ c1 ∈ cs, ∀ c2 ∈ cs, ∀ a, InReg g c2 a →
      ¬(g.fatOffset + c1 * 4 ≤ a ∧ a < g.fatOffset + c1 * 4 + 4))
    (hlen : buf.length = data.length)
    (hf1 : data.length < f1) (hf2 : buf.length < f2) :
    (∀ a, (∀ cc ∈ cs, ¬InReg g cc a) → writeLoop g f1 s c data a = s a) ∧
    readLoop (writeLoop g f1 s c data) g f2 c buf = data := by
  obtain ⟨hframe, hchunks⟩ := writeLoop_frame_chunks g cs s c data f1 hw hcov hnd hfat hf1
  refine ⟨hframe, ?_⟩
  have hfatT : ∀ cc ∈ cs, fatVal (writeLoop g f1 s c data) g cc = fatVal s g cc := by
    intro cc hcc
    apply fatVal_congr
    intro j hj
    apply hframe
    intro c2 hc2 hin
    exact hfat cc hcc c2 hc2 _ hin ⟨Nat.le_add_right _ _, by omega⟩
  have hwT : walkOn (writeLoop g f1 s c data) g c cs.length = cs := by
    have hcg := @walkOn_congr s (writeLoop g f1 s c data) g cs.length c
      (fun cc hcc => hfatT cc (hw ▸ hcc))
    rw [hcg, hw]
  exact readLoop_chunks g cs (writeLoop g f1 s c data) c data buf f2 hwT hcov hchunks hlen hf2

/-- **C7** (amended).  `write` followed by `read` at the same offset and
length round-trips the written bytes whenever the chain provides enough
clusters to cover the transfer *as the code schedules it*: the masked
sub-cluster offset `off & (1 << L)` (which is 0 or a full cluster size, not
the remainder `off mod 2^L`) plus the data length must fit in the clusters
remaining after skipping `off >> L` whole clusters (`hcov`).  When bit `L`
of the offset is clear this coincides with the claim's "range fully within
the allocated chain"; when bit `L` is set one chain cluster is consumed
without being serviced, so some in-chain ranges are silently truncated and
the original claim fails (see the counterexample
`C7_cex_offset_bit_set_transfers_nothing`).  The remaining hypotheses spell
out what "existing allocated chain" means on a consistent volume: the chain
walk from the entry's first cluster provides `cs` clusters, pairwise
distinct (a looping chain never terminates), whose FAT cells and the
directory-entry slot itself lie outside the chain's data regions. -/
theorem C7_write_read_roundtrip (s : Storage) (g : Geometry) (index off : Nat)
    (data buf cs : List Nat)
    (hattr : dirAttr s (g.clusterHeapOffset + index * 32) &&& 0x18 = 0)
    (hw : walkOn s g
      (dirFstClusLo s (g.clusterHeapOffset + index * 32) |||
        (dirFstClusHi s (g.clusterHeapOffset + index * 32) <<< 16)) cs.length = cs)
    (hcov : (off &&& (1 <<< g.bytesPerClusterLog2)) + data.length ≤
      (cs.length - (off >>> g.bytesPerClusterLog2)) * clusterSize g)
    (hnd : cs.Nodup)
    (hfat : ∀ c1 ∈ cs, ∀ c2 ∈ cs, ∀ a, InReg g c2 a →
      ¬(g.fatOffset + c1 * 4 ≤ a ∧ a < g.fatOffset + c1 * 4 + 4))
    (hslot : ∀ c2 ∈ cs, ∀ a, InReg g c2 a →
      ¬(g.clusterHeapOffset + index * 32 ≤ a ∧ a < g.clusterHeapOffset + index * 32 + 32))
    (hlen : buf.length = data.length) :
    ∃ t, fatWrite s g index off data = .ok t ∧ fatRead t g index off buf = .ok data := by
  have hK : 0 < clusterSize g := clusterSize_pos g
  set K := clusterSize g with hKdef
  set L := g.bytesPerClusterLog2 with hLdef
  set base := g.clusterHeapOffset + index * 32 with hbasedef
  set first := dirFstClusLo s base ||| (dirFstClusHi s base <<< 16) with hfirstdef
  set n := off >>> L with hndef
  set off2 := off &&& (1 <<< L) with hoff2def
  have hKshift : 1 <<< L = K := by rw [hKdef, clusterSize]
  have hoff2cases : off2 = 0 ∨ off2 = K := by
    rw [hoff2def, Nat.one_shiftLeft, Nat.and_two_pow]
    cases h : off.testBit L
    · left; simp
    · right
      simp only [Bool.toNat_true, Nat.one_mul]
      rw [← Nat.one_shiftLeft, hKshift]
  by_cases hdata : data = []
  · subst hdata
    have hbuf : buf = [] := List.length_eq_zero.mp (by simpa using hlen)
    subst hbuf
    unfold fatWrite
    rw [if_neg (not_ne_iff.mpr hattr)]
    dsimp only
    rw [← hbasedef, ← hfirstdef, ← hLdef, ← hndef]
    by_cases hend : isChainEnd (skipChain s g first n)
    · rw [if_pos hend]
      refine ⟨s, rfl, ?_⟩
      unfold fatRead
      rw [if_neg (not_ne_iff.mpr hattr)]
      dsimp only
      rw [← hbasedef, ← hfirstdef, ← hLdef, ← hndef, if_pos hend]
    · rw [if_neg hend]
      simp only [List.length_nil, List.take_nil, List.drop_nil, writeBytes_nil]
      have hwl : ∀ c', writeLoop g (0 + 1) s c' [] = s := fun c' => rfl
      rw [hwl]
      refine ⟨s, rfl, ?_⟩
      unfold fatRead
      rw [if_neg (not_ne_iff.mpr hattr)]
      dsimp only
      rw [← hbasedef, ← hfirstdef, ← hLdef, ← hndef, if_neg hend]
      simp [readBytes, readLoop]
  · have hdlen : data.length ≠ 0 := by simpa [List.length_eq_zero] using hdata
    have hm : 0 < cs.length - n := by
      by_contra h'
      have h0 : cs.length - n = 0 := by omega
      rw [h0, Nat.zero_mul] at hcov
      omega
    have hnlt : n < cs.length := by omega
    have hnadd : n + (cs.length - n) = cs.length := by omega
    have hwn : walkOn s g first (n + (cs.length - n)) = cs := by rw [hnadd]; exact hw
    obtain ⟨hskip, hwdrop⟩ := walkOn_skip s g n (cs.length - n) first cs hm hwn (by omega)
    set c₀ := cs.getD n 0 with hc₀def
    have hc₀mem : c₀ ∈ cs := by
      rw [hc₀def, List.getD_eq_getElem _ _ hnlt]
      exact List.getElem_mem _
    have hval : ∀ cc ∈ cs, isChainEnd cc = false := fun cc h =>
      walkOn_valid s g cs.length first cc (by rw [hw]; exact h)
    have hc₀end : isChainEnd c₀ = false := hval c₀ hc₀mem
    have hc₀neg : ¬(isChainEnd c₀ = true) := by simp [hc₀end]
    rcases hoff2cases with hz | hKo
    -- sub-cluster offset bit clear: the head chunk starts at the cluster base
    · have hWeq : fatWrite s g index off data =
          .ok (writeLoop g (data.length + 1) s c₀ data) := by
        unfold fatWrite
        rw [if_neg (not_ne_iff.mpr hattr)]
        dsimp only
        rw [← hbasedef, ← hfirstdef, ← hLdef, ← hndef, hskip, if_neg hc₀neg]
        rw [← hoff2def, ← hKdef, hz, Nat.add_zero, Nat.sub_zero,
          take_min_length, drop_min_length]
        congr 1
        conv_rhs => rw [writeLoop]
        rw [if_neg hdata, if_neg hc₀neg]
        dsimp only
        rw [← hKdef]
        apply writeLoop_fuel_irrel
        · simp only [List.length_drop]; omega
        · simp only [List.length_drop]; omega
      have hwdrop' : walkOn s g c₀ (cs.drop n).length = cs.drop n := by
        rw [List.length_drop]; exact hwdrop
      have hcovW : data.length ≤ (cs.drop n).length * K := by
        rw [List.length_drop]
        rw [hz, Nat.zero_add] at hcov
        exact hcov
      have hndW : (cs.drop n).Nodup := hnd.sublist (List.drop_sublist _ _)
      have hfatW : ∀ c1 ∈ cs.drop n, ∀ c2 ∈ cs.drop n, ∀ a, InReg g c2 a →
          ¬(g.fatOffset + c1 * 4 ≤ a ∧ a < g.fatOffset + c1 * 4 + 4) :=
        fun c1 h1 c2 h2 a hin =>
          hfat c1 (List.drop_subset _ _ h1) c2 (List.drop_subset _ _ h2) a hin
      obtain ⟨hframe, hrt⟩ := writeLoop_roundtrip g (cs.drop n) s c₀ data buf
        (data.length + 1) (buf.length + 1) hwdrop' hcovW hndW hfatW hlen
        (by omega) (by omega)
      set t := writeLoop g (data.length + 1) s c₀ data with htdef
      have hTbase : ∀ k, k < 32 → t (base + k) = s (base + k) := by
        intro k hk
        apply hframe
        intro cc hcc hin
        exact hslot cc (List.drop_subset _ _ hcc) _ hin ⟨Nat.le_add_right _ _, by omega⟩
      have hattrT : dirAttr t base = dirAttr s base := hTbase 11 (by omega)
      have hloT : dirFstClusLo t base = dirFstClusLo s base := by
        unfold dirFstClusLo readU16
        rw [show base + 26 + 1 = base + 27 from by omega, hTbase 26 (by omega),
          hTbase 27 (by omega)]
      have hhiT : dirFstClusHi t base = dirFstClusHi s base := by
        unfold dirFstClusHi readU16
        rw [show base + 20 + 1 = base + 21 from by omega, hTbase 20 (by omega),
          hTbase 21 (by omega)]
      have hfatT : ∀ cc ∈ cs, fatVal t g cc = fatVal s g cc := by
        intro cc hcc
        apply fatVal_congr
        intro j hj
        apply hframe
        intro c2 hc2 hin
        exact hfat cc hcc c2 (List.drop_subset _ _ hc2) _ hin
          ⟨Nat.le_add_right _ _, by omega⟩
      have hwT : walkOn t g first cs.length = cs := by
        have hcg := @walkOn_congr s t g cs.length first
          (fun cc hcc => hfatT cc (hw ▸ hcc))
        rw [hcg, hw]
      have hwnT : walkOn t g first (n + (cs.length - n)) = cs := by rw [hnadd]; exact hwT
      obtain ⟨hskipT, _⟩ := walkOn_skip t g n (cs.length - n) first cs hm hwnT (by omega)
      refine ⟨t, hWeq, ?_⟩
      unfold fatRead
      rw [if_neg (show ¬(dirAttr t (g.clusterHeapOffset + index * 32) &&& 0x18 ≠ 0) by
        rw [← hbasedef, hattrT]; exact not_ne_iff.mpr hattr)]
      dsimp only
      rw [← hbasedef, hloT, hhiT, ← hfirstdef, ← hLdef, ← hndef, hskipT, if_neg hc₀neg]
      rw [← hoff2def, ← hKdef, hz, Nat.add_zero, Nat.sub_zero, drop_min_length]
      congr 1
      have hbufne : buf ≠ [] := by
        intro hcontra
        rw [hcontra] at hlen
        simp at hlen
        omega
      calc readBytes t (clusterAddr g c₀) (min buf.length K) ++
            readLoop t g (buf.length + 1) (fatVal t g c₀) (buf.drop K)
          = readBytes t (clusterAddr g c₀) (min K buf.length) ++
            readLoop t g buf.length (fatVal t g c₀) (buf.drop K) := by
            rw [Nat.min_comm]
            congr 1
            apply readLoop_fuel_irrel
            · simp only [List.length_drop]; omega
            · simp only [List.length_drop]; omega
        _ = readLoop t g (buf.length + 1) c₀ buf := by
            rw [readLoop, if_neg hbufne, if_neg hc₀neg]
        _ = data := hrt
    -- sub-cluster offset bit set: the head access is empty, writing starts
    -- at the next chain cluster
    · rw [hKo] at hcov
      have hr2 : 2 ≤ cs.length - n := by
        by_contra h'
        have h01 : cs.length - n = 0 ∨ cs.length - n = 1 := by omega
        rcases h01 with h0 | h0 <;> rw [h0] at hcov
        · rw [Nat.zero_mul] at hcov; omega
        · rw [Nat.one_mul] at hcov; omega
      have hstep : walkOn s g c₀ ((cs.length - (n + 1)) + 1) = cs.drop n := by
        rw [show cs.length - (n + 1) + 1 = cs.length - n from by omega]
        exact hwdrop
      rw [walkOn, if_neg hc₀neg] at hstep
      have hdropcons : cs.drop n = c₀ :: cs.drop (n + 1) := by
        rw [List.drop_eq_getElem_cons hnlt]
        congr 1
        rw [hc₀def, List.getD_eq_getElem _ _ hnlt]
      rw [hdropcons] at hstep
      injection hstep with _ hwnext
      have hWeq : fatWrite s g index off data =
          .ok (writeLoop g (data.length + 1) s (fatVal s g c₀) data) := by
        unfold fatWrite
        rw [if_neg (not_ne_iff.mpr hattr)]
        dsimp only
        rw [← hbasedef, ← hfirstdef, ← hLdef, ← hndef, hskip, if_neg hc₀neg]
        rw [← hoff2def, ← hKdef, hKo, Nat.sub_self, Nat.min_zero, List.take_zero,
          List.drop_zero, writeBytes_nil]
      have hwnext' : walkOn s g (fatVal s g c₀) (cs.drop (n + 1)).length =
          cs.drop (n + 1) := by
        rw [List.length_drop]; exact hwnext
      have hcovW : data.length ≤ (cs.drop (n + 1)).length * K := by
        rw [List.length_drop]
        have hmul : (cs.length - n) * K = (cs.length - (n + 1)) * K + K := by
          rw [show cs.length - n = (cs.length - (n + 1)) + 1 from by omega, Nat.succ_mul]
        omega
      have hndW : (cs.drop (n + 1)).Nodup := hnd.sublist (List.drop_sublist _ _)
      have hfatW : ∀ c1 ∈ cs.drop (n + 1), ∀ c2 ∈ cs.drop (n + 1), ∀ a, InReg g c2 a →
          ¬(g.fatOffset + c1 * 4 ≤ a ∧ a < g.fatOffset + c1 * 4 + 4) :=
        fun c1 h1 c2 h2 a hin =>
          hfat c1 (List.drop_subset _ _ h1) c2 (List.drop_subset _ _ h2) a hin
      obtain ⟨hframe, hrt⟩ := writeLoop_roundtrip g (cs.drop (n + 1)) s (fatVal s g c₀)
        data buf (data.length + 1) (buf.length + 1) hwnext' hcovW hndW hfatW hlen
        (by omega) (by omega)
      set t := writeLoop g (data.length + 1) s (fatVal s g c₀) data with htdef
      have hTbase : ∀ k, k < 32 → t (base + k) = s (base + k) := by
        intro k hk
        apply hframe
        intro cc hcc hin
        exact hslot cc (List.drop_subset _ _ hcc) _ hin ⟨Nat.le_add_right _ _, by omega⟩
      have hattrT : dirAttr t base = dirAttr s base := hTbase 11 (by omega)
      have hloT : dirFstClusLo t base = dirFstClusLo s base := by
        unfold dirFstClusLo readU16
        rw [show base + 26 + 1 = base + 27 from by omega, hTbase 26 (by omega),
          hTbase 27 (by omega)]
      have hhiT : dirFstClusHi t base = dirFstClusHi s base := by
        unfold dirFstClusHi readU16
        rw [show base + 20 + 1 = base + 21 from by omega, hTbase 20 (by omega),
          hTbase 21 (by omega)]
      have hfatT : ∀ cc ∈ cs, fatVal t g cc = fatVal s g cc := by
        intro cc hcc
        apply fatVal_congr
        intro j hj
        apply hframe
        intro c2 hc2 hin
        exact hfat cc hcc c2 (List.drop_subset _ _ hc2) _ hin
          ⟨Nat.le_add_right _ _, by omega⟩
      have hwT : walkOn t g first cs.length = cs := by
        have hcg := @walkOn_congr s t g cs.length first
          (fun cc hcc => hfatT cc (hw ▸ hcc))
        rw [hcg, hw]
      have hwnT : walkOn t g first (n + (cs.length - n)) = cs := by rw [hnadd]; exact hwT
      obtain ⟨hskipT, _⟩ := walkOn_skip t g n (cs.length - n) first cs hm hwnT (by omega)
      refine ⟨t, hWeq, ?_⟩
      unfold fatRead
      rw [if_neg (show ¬(dirAttr t (g.clusterHeapOffset + index * 32) &&& 0x18 ≠ 0) by
        rw [← hbasedef, hattrT]; exact not_ne_iff.mpr hattr)]
      dsimp only
      rw [← hbasedef, hloT, hhiT, ← hfirstdef, ← hLdef, ← hndef, hskipT, if_neg hc₀neg]
      rw [← hoff2def, ← hKdef, hKo, Nat.sub_self, Nat.min_zero, List.drop_zero]
      have hrb0 : readBytes t (clusterAddr g c₀ + K) 0 = [] := by
        simp [readBytes]
      rw [hrb0, List.nil_append, hfatT c₀ hc₀mem, hrt]

/-- Witness for C7 on the fixture `s3` (file slot 0, chain `3 → 4`, 512-byte
clusters): writing 8 bytes at offset 508 and reading 8 bytes back at offset
508 returns exactly the written bytes. -/
theorem C7_write_read_roundtrip_witness :
    ∃ t, fatWrite s3 g1 0 508 [9, 8, 7, 6, 5, 4, 3, 2] = .ok t ∧
      fatRead t g1 0 508 (List.replicate 8 0) = .ok [9, 8, 7, 6, 5, 4, 3, 2] :=
  C7_write_read_roundtrip s3 g1 0 508 [9, 8, 7, 6, 5, 4, 3, 2] (List.replicate 8 0)
    [3, 4] (by decide) (by decide) (by decide) (by decide)
    (by
      intro c1 h1 c2 h2 a hin hcell
      fin_cases h1 <;> fin_cases h2 <;>
        (simp only [InReg, clusterAddr, clusterSize, g1] at hin hcell; omega))
    (by
      intro c2 h2 a hin hcell
      fin_cases h2 <;>
        (simp only [InReg, clusterAddr, clusterSize, g1] at hin hcell; omega))
    (by decide)

/-- **C7** (counterexample).  The claim as stated — the round trip holds for
*every* offset/length range fully within the existing allocated chain — is
false of the code.  On the fixture `s3` (file slot 0, chain `3 → 4`,
512-byte clusters, so the chain holds bytes 0..1023), writing 4 bytes at
byte offset 512 (range [512, 516), fully within the chain) and reading 4
bytes back at the same offset returns the buffer's prior zeros, not the
written bytes: the code skips `512 >> 9 = 1` cluster, the masked sub-cluster
offset `512 & (1 << 9) = 512` makes the head access zero-length, and the
tail loop has no further cluster — nothing is written and nothing read. -/
theorem C7_cex_offset_bit_set_transfers_nothing :
    (fatWrite s3 g1 0 512 [1, 2, 3, 4]).bind
        (fun t => fatRead t g1 0 512 (List.replicate 4 0)) = .ok [0, 0, 0, 0] ∧
    [0, 0, 0, 0] ≠ [1, 2, 3, 4] :=
  ⟨rfl, by decide⟩

end Hyrax
